import Mathlib

/-
Shallow embedding of the astrbot_plugin_help module (src/main.py) and
verification of its specification claims.

The module parses a plugin-whitelist configuration, synthesizes one help
handler per whitelist entry, gates the main help command by a caller
whitelist, and scans the host registry for commands per extension.
-/

namespace AstrbotHelp

/-- A Python value as it appears in configuration lists and message payloads:
either an integer or a string (the only two shapes the code distinguishes,
via `isinstance(item, str)` checks and `str(...)` coercion). -/
inductive PyVal where
  | int (n : Int)
  | str (s : String)
deriving DecidableEq

/-- Python `str(v)` coercion used by the access gate on both the caller id
and the whitelist entries. -/
def pyStr : PyVal → String
  | .int n => toString n
  | .str s => s

/-- Characters remaining after stripping leading and trailing whitespace. -/
def trimChars (l : List Char) : List Char :=
  ((l.dropWhile Char.isWhitespace).reverse.dropWhile Char.isWhitespace).reverse

/-- Python `str.strip()`: drop leading and trailing whitespace. -/
def pyStrip (s : String) : String := String.mk (trimChars s.data)

/-- Split a character list at the first occurrence of a dash character:
`none` when there is no dash (Python's `'-' in item` test failing),
otherwise the characters before and after the first dash. -/
def splitFirstDash : List Char → Option (List Char × List Char)
  | [] => none
  | c :: rest =>
    if c = '-' then some ([], rest)
    else
      match splitFirstDash rest with
      | some (l, r) => some (c :: l, r)
      | none => none

/-- Python `item.split('-', 1)` guarded by `'-' in item`: split the string
at the first dash only, so the right part may itself contain dashes. -/
def splitDash (s : String) : Option (String × String) :=
  match splitFirstDash s.data with
  | some (l, r) => some (String.mk l, String.mk r)
  | none => none

/-- Insertion-ordered dict assignment `m[k] = v` (Python dict semantics:
an existing key keeps its position and gets the new value, a new key is
appended at the end). -/
def dictInsert (m : List (String × String)) (k v : String) :
    List (String × String) :=
  if m.any (fun p => p.1 == k) then
    m.map (fun p => if p.1 == k then (k, v) else p)
  else m ++ [(k, v)]

/-- One step of `_parse_whitelist_config`: a string entry containing a dash
is split at the first dash; the trimmed right part becomes the trigger key,
the trimmed left part the extension-name value. Non-strings and entries
without a dash are skipped. -/
def parseStep (m : List (String × String)) : PyVal → List (String × String)
  | .str s =>
    match splitDash s with
    | some (l, r) => dictInsert m (pyStrip r) (pyStrip l)
    | none => m
  | _ => m

/-- Embeds `_parse_whitelist_config`: fold the configuration into the
trigger-command → extension-name dict. -/
def parseWhitelistConfig (pw : List PyVal) : List (String × String) :=
  pw.foldl parseStep []

/-- One step of the extension-keyed dict built inside
`get_plugin_whitelist_commands`: the trimmed left part becomes the
extension key, the trimmed right part the trigger value. -/
def extStep (m : List (String × String)) : PyVal → List (String × String)
  | .str s =>
    match splitDash s with
    | some (l, r) => dictInsert m (pyStrip l) (pyStrip r)
    | none => m
  | _ => m

/-- The extension-name → trigger-command dict built inside
`get_plugin_whitelist_commands`. -/
def whitelistConfigByExtension (pw : List PyVal) : List (String × String) :=
  pw.foldl extStep []

/-- A `StarMetadata` record from the host registry: name, activation flag,
the implementation instance (`star_cls`, `none` when absent or not a `Star`
instance, otherwise an opaque instance identity), and the module path. -/
structure StarMetadata where
  name : String
  activated : Bool
  star_cls : Option Nat
  module_path : Option String
deriving DecidableEq

/-- A declared trigger filter of a handler: a single-command filter, a
command-group filter, or any other filter kind. -/
inductive EventFilter where
  | commandFilter (command_name : String)
  | commandGroupFilter (group_name : String)
  | otherFilter
deriving DecidableEq

/-- A `StarHandlerMetadata` record from the global handler registry. -/
structure StarHandlerMetadata where
  handler_module_path : String
  desc : Option String
  event_filters : List EventFilter
deriving DecidableEq

/-- An element of the global handler registry: either a proper
`StarHandlerMetadata` record or some other object (skipped by the
`isinstance` check). -/
inductive HandlerEntry where
  | meta (m : StarHandlerMetadata)
  | other
deriving DecidableEq

/-- The inner filter loop of the scanners: the first single-command filter
yields its command name, the first command-group filter its group name;
other filters are passed over. -/
def extractCommandName : List EventFilter → Option String
  | [] => none
  | .commandFilter cn :: _ => some cn
  | .commandGroupFilter gn :: _ => some gn
  | .otherFilter :: rest => extractCommandName rest

/-- Display formatting: `"name#description"` when the handler declares a
truthy (non-empty) description, else `"name"`. -/
def formatCommand (cn : String) (desc : Option String) : String :=
  match desc with
  | some d => if d = "" then cn else cn ++ "#" ++ d
  | none => cn

/-- Embeds `plugin_commands[plugin_name]` on the defaultdict: the accumulated list
for a key, empty when the key is absent. -/
def lookupVals (m : List (String × List String)) (k : String) : List String :=
  match m.find? (fun p => p.1 == k) with
  | some p => p.2
  | none => []

/-- The guarded append
`if formatted not in plugin_commands[k]: plugin_commands[k].append(v)`
on the insertion-ordered defaultdict. -/
def appendUnique (m : List (String × List String)) (k v : String) :
    List (String × List String) :=
  if m.any (fun p => p.1 == k) then
    m.map (fun p => if p.1 == k then (p.1, if v ∈ p.2 then p.2 else p.2 ++ [v]) else p)
  else m ++ [(k, [v])]

/-- One iteration of the handler-registry loop shared by both scanners:
skip non-metadata entries and handlers of other modules, extract a command
name from the filters, skip falsy names, and accumulate the formatted
string without duplicates. -/
def stepHandler (pluginName mp : String) (acc : List (String × List String)) :
    HandlerEntry → List (String × List String)
  | .other => acc
  | .meta h =>
    if h.handler_module_path ≠ mp then acc
    else
      match extractCommandName h.event_filters with
      | none => acc
      | some cn =>
        if cn = "" then acc
        else appendUnique acc pluginName (formatCommand cn h.desc)

/-- The full handler-registry loop for one retained extension. -/
def scanHandlers (registry : List HandlerEntry) (pluginName mp : String)
    (acc : List (String × List String)) : List (String × List String) :=
  registry.foldl (stepHandler pluginName mp) acc

/-- The hardcoded reserved-name test of `get_all_commands`. -/
def reservedName (n : String) : Bool :=
  n == "astrbot" || n == "astrbot_plugin_help" || n == "astrbot-reminder"

/-- One iteration of the star loop of `get_all_commands`: skip reserved
names, invalid metadata (empty name, falsy module path, instance not a
`Star`), and the module's own instance; otherwise scan the handler
registry for this extension. -/
def processStar (registry : List HandlerEntry) (selfId : Nat)
    (acc : List (String × List String)) (star : StarMetadata) :
    List (String × List String) :=
  if reservedName star.name then acc
  else
    match star.module_path, star.star_cls with
    | some mp, some inst =>
      if star.name == "" || mp == "" then acc
      else if inst == selfId then acc
      else scanHandlers registry star.name mp acc
    | _, _ => acc

/-- Embeds `get_all_commands`: fetch the stars (fail soft on error), keep the
activated ones, return empty when none remain, and fold the star loop. -/
def getAllCommands (gas : Except Unit (List StarMetadata))
    (registry : List HandlerEntry) (selfId : Nat) :
    List (String × List String) :=
  match gas with
  | .error _ => []
  | .ok stars =>
    let active := stars.filter (fun s => s.activated)
    if active.isEmpty then []
    else active.foldl (processStar registry selfId) []

/-- One iteration of the star loop of `get_plugin_whitelist_commands`:
skip stars absent from the extension-keyed whitelist dict, invalid
metadata, and the module's own instance; no reserved-name filter. -/
def processStarWL (wc : List (String × String)) (registry : List HandlerEntry)
    (selfId : Nat) (acc : List (String × List String)) (star : StarMetadata) :
    List (String × List String) :=
  if ¬ wc.any (fun p => p.1 == star.name) then acc
  else
    match star.module_path, star.star_cls with
    | some mp, some inst =>
      if star.name == "" || mp == "" then acc
      else if inst == selfId then acc
      else scanHandlers registry star.name mp acc
    | _, _ => acc

/-- Embeds `get_plugin_whitelist_commands`: empty whitelist yields empty result;
star fetch fails soft; otherwise fold the whitelist-filtered star loop
over the activated stars. -/
def getPluginWhitelistCommands (pw : List PyVal)
    (gas : Except Unit (List StarMetadata)) (registry : List HandlerEntry)
    (selfId : Nat) : List (String × List String) :=
  if pw.isEmpty then []
  else
    match gas with
    | .error _ => []
    | .ok stars =>
      let active := stars.filter (fun s => s.activated)
      active.foldl (processStarWL (whitelistConfigByExtension pw) registry selfId) []

/-- Python `command.replace(' ', '_')`: every space becomes an underscore. -/
def underscoreSpaces (s : String) : String :=
  String.mk (s.data.map (fun c => if c = ' ' then '_' else c))

/-- The internal registration identity
`f"whitelist_{command.replace(' ', '_')}"` of a synthesized handler. -/
def handlerName (command : String) : String :=
  "whitelist_" ++ underscoreSpaces command

/-- A synthesized whitelist handler: its trigger command, the extension
name bound into its closure by `make_handler`, and its internal
registration identity. -/
structure WhitelistHandler where
  command : String
  boundPlugin : String
  internalName : String
deriving DecidableEq

/-- Embeds `_create_whitelist_handlers`: one handler per entry of the parsed
trigger → extension dict, in iteration order; `make_handler(plugin_name)`
binds the per-entry extension name through a function parameter, so each
handler carries its own entry's value. -/
def createWhitelistHandlers (wc : List (String × String)) :
    List WhitelistHandler :=
  wc.map (fun p =>
    { command := p.1, boundPlugin := p.2, internalName := handlerName p.1 })

/-- The observable outcome of one synthesized-handler invocation. -/
inductive HandlerResult where
  | imageReply (m : List (String × List String))
  | plainReply (s : String)
deriving DecidableEq

/-- The body of a synthesized `whitelist_handler`: compute the whitelist
scan, and if the bound extension is present reply with an image of just
that extension's entry, otherwise with the plain not-found message. -/
def runWhitelistHandler (h : WhitelistHandler) (pw : List PyVal)
    (gas : Except Unit (List StarMetadata)) (registry : List HandlerEntry)
    (selfId : Nat) : HandlerResult :=
  let help_msg := getPluginWhitelistCommands pw gas registry selfId
  match help_msg.find? (fun p => p.1 == h.boundPlugin) with
  | some p => .imageReply [(h.boundPlugin, p.2)]
  | none => .plainReply ("插件 " ++ h.boundPlugin ++ " 未找到或未激活")

/-- The observable outcome of one `get_help` invocation: an uncaught
exception escaping to the host, a silent return with no reply, a plain
text reply, or an image reply. -/
inductive HelpResult where
  | raisedError
  | silentDeny
  | plainReply (s : String)
  | imageReply (m : List (String × List String))
deriving DecidableEq

/-- Embeds `raw.get(k, None)` on the raw-message payload dict. -/
def rawGet (r : List (String × PyVal)) (k : String) : Option PyVal :=
  (r.find? (fun p => p.1 == k)).map (fun p => p.2)

/-- Embeds `get_help`: when the event's `raw_message` is `None`, the unguarded
`raw.get("user_id", None)` raises `AttributeError`; otherwise the caller
whitelist gate silently returns for a resolvable non-whitelisted id, and
the surviving path replies with either the empty-result plain text or the
rendered image of the full scan. -/
def getHelp (wl : List PyVal) (raw : Option (List (String × PyVal)))
    (gas : Except Unit (List StarMetadata)) (registry : List HandlerEntry)
    (selfId : Nat) : HelpResult :=
  match raw with
  | none => .raisedError
  | some r =>
    let user_id := rawGet r "user_id"
    let denied : Bool :=
      match user_id with
      | none => false
      | some uid => !wl.isEmpty && !((wl.map pyStr).contains (pyStr uid))
    if denied then .silentDeny
    else
      let help_msg := getAllCommands gas registry selfId
      if help_msg.isEmpty then .plainReply "没有找到任何插件或命令"
      else .imageReply help_msg

/-! ### Basic lemmas about the embedded primitives -/

theorem string_mk_data (s : String) : String.mk s.data = s := by
  cases s
  rfl

theorem splitFirstDash_eq_none {l : List Char} (h : '-' ∉ l) :
    splitFirstDash l = none := by
  induction l with
  | nil => rfl
  | cons c rest ih =>
    have hc : c ≠ '-' := fun hc => h (hc ▸ List.mem_cons_self c rest)
    have hr : '-' ∉ rest := fun hr => h (List.mem_cons_of_mem c hr)
    simp [splitFirstDash, hc, ih hr]

theorem splitFirstDash_append {l : List Char} (r : List Char) (h : '-' ∉ l) :
    splitFirstDash (l ++ '-' :: r) = some (l, r) := by
  induction l with
  | nil => simp [splitFirstDash]
  | cons c rest ih =>
    have hc : c ≠ '-' := fun hc => h (hc ▸ List.mem_cons_self c rest)
    have hr : '-' ∉ rest := fun hr => h (List.mem_cons_of_mem c hr)
    simp [splitFirstDash, hc, ih hr]

theorem splitDash_concat (a b : String) (h : '-' ∉ a.data) :
    splitDash (a ++ "-" ++ b) = some (a, b) := by
  have hdata : (a ++ "-" ++ b).data = a.data ++ '-' :: b.data := by
    rw [String.data_append, String.data_append]
    show a.data ++ ['-'] ++ b.data = _
    rw [List.append_assoc]
    rfl
  unfold splitDash
  rw [hdata, splitFirstDash_append b.data h]

theorem splitDash_eq_none {s : String} (h : '-' ∉ s.data) :
    splitDash s = none := by
  unfold splitDash
  rw [splitFirstDash_eq_none h]

/-! ### Claim C3 -/

/-- Claim C3: the claim says that an event from which no caller id can be
determined — in particular one whose message object carries no raw message
payload — is treated as allowed and that no unhandled fault escapes. The
code instead dereferences the absent payload (`raw.get` on `None`), so the
invocation raises an uncaught `AttributeError` for every whitelist,
registry and self identity. -/
theorem getHelp_raw_none_raises (wl : List PyVal)
    (gas : Except Unit (List StarMetadata)) (registry : List HandlerEntry)
    (selfId : Nat) :
    getHelp wl none gas registry selfId = HelpResult.raisedError := rfl

/-! ### Claim C8 -/

/-- Claim C8: when the host registry query raises, the scanner returns the
empty mapping, and the full-discovery entry point replies with the
plain-text "no extensions or commands found" message instead of an image. -/
theorem registry_raise_fails_soft :
    (∀ (registry : List HandlerEntry) (selfId : Nat),
      getAllCommands (Except.error ()) registry selfId = []) ∧
    (∀ (r : List (String × PyVal)) (registry : List HandlerEntry)
        (selfId : Nat),
      getHelp [] (some r) (Except.error ()) registry selfId =
        HelpResult.plainReply "没有找到任何插件或命令") := by
  refine ⟨fun _ _ => rfl, fun r registry selfId => ?_⟩
  cases h : rawGet r "user_id" <;>
    simp [getHelp, h, getAllCommands]

/-! ### Claim C4 -/

/-- Claim C4 counterexample: the internal registration identity is not
injective on trigger commands — the distinct commands `"a b"` and `"a_b"`
derive the identical identity `"whitelist_a_b"`, so the second
registration overwrites the first. -/
theorem handlerName_collision :
    handlerName "a b" = handlerName "a_b" ∧ ("a b" : String) ≠ "a_b" := by
  exact ⟨by decide, by decide⟩

/-- Claim C4 (amended): the internal identity is derived deterministically
from the trigger command, and it is injective on commands that remain
distinct after replacing each space with an underscore; only commands
identified by that space-to-underscore normalization collide. -/
theorem handlerName_injective_on_normalized (c1 c2 : String)
    (h : underscoreSpaces c1 ≠ underscoreSpaces c2) :
    handlerName c1 ≠ handlerName c2 := by
  intro he
  apply h
  have hd : ("whitelist_" ++ underscoreSpaces c1).data =
      ("whitelist_" ++ underscoreSpaces c2).data := congrArg String.data he
  rw [String.data_append, String.data_append] at hd
  have h2 := List.append_cancel_left hd
  calc underscoreSpaces c1
      = String.mk (underscoreSpaces c1).data := (string_mk_data _).symm
    _ = String.mk (underscoreSpaces c2).data := by rw [h2]
    _ = underscoreSpaces c2 := string_mk_data _

/-- Witness for C4's amended theorem at the concrete commands `"x"` and
`"y"`. -/
theorem handlerName_injective_on_normalized_witness :
    underscoreSpaces "x" ≠ underscoreSpaces "y" ∧
      handlerName "x" ≠ handlerName "y" :=
  ⟨by decide, handlerName_injective_on_normalized "x" "y" (by decide)⟩

/-! ### Claim C6 -/

/-- Claim C6 counterexample: the parser performs no non-emptiness check.
The entry `"A-"` yields the pair with an empty trimmed trigger command,
and `"-B"` yields the pair with an empty trimmed extension name; neither
is dropped. -/
theorem parse_keeps_empty_components :
    ("", "A") ∈ parseWhitelistConfig [PyVal.str "A-"] ∧
      ("B", "") ∈ parseWhitelistConfig [PyVal.str "-B"] := by
  exact ⟨by decide, by decide⟩

/-! ### Parser lemmas -/

theorem mem_dictInsert {m : List (String × String)} {k v : String}
    {p : String × String} (h : p ∈ dictInsert m k v) :
    p = (k, v) ∨ p ∈ m := by
  unfold dictInsert at h
  by_cases hc : m.any (fun q => q.1 == k) = true
  · rw [if_pos hc] at h
    obtain ⟨q, hq, hfq⟩ := List.mem_map.mp h
    by_cases hk : (q.1 == k) = true
    · left
      rw [if_pos hk] at hfq
      exact hfq.symm
    · right
      rw [if_neg hk] at hfq
      exact hfq ▸ hq
  · rw [if_neg hc] at h
    rcases List.mem_append.mp h with h1 | h2
    · exact Or.inr h1
    · exact Or.inl (by simpa using h2)

theorem parseStep_no_dash (m : List (String × String)) {s : String}
    (h : '-' ∉ s.data) : parseStep m (PyVal.str s) = m := by
  simp [parseStep, splitDash_eq_none h]

theorem extStep_no_dash (m : List (String × String)) {s : String}
    (h : '-' ∉ s.data) : extStep m (PyVal.str s) = m := by
  simp [extStep, splitDash_eq_none h]

theorem mem_foldl_parseStep :
    ∀ (pw : List PyVal) (acc : List (String × String)) (p : String × String),
      p ∈ pw.foldl parseStep acc →
      p ∈ acc ∨ ∃ s l r, PyVal.str s ∈ pw ∧ splitDash s = some (l, r) ∧
        p = (pyStrip r, pyStrip l) := by
  intro pw
  induction pw with
  | nil => exact fun acc p h => Or.inl h
  | cons x pw ih =>
    intro acc p h
    rw [List.foldl_cons] at h
    rcases ih (parseStep acc x) p h with h0 | ⟨s, l, r, hs, hsp, hp⟩
    · match x with
      | .int n => exact Or.inl h0
      | .str s =>
        simp only [parseStep] at h0
        cases hsp : splitDash s with
        | none => rw [hsp] at h0; exact Or.inl h0
        | some lr =>
          rw [hsp] at h0
          rcases mem_dictInsert h0 with h1 | h2
          · exact Or.inr ⟨s, lr.1, lr.2, List.mem_cons_self _ _, by rw [hsp], h1⟩
          · exact Or.inl h2
    · exact Or.inr ⟨s, l, r, List.mem_cons_of_mem x hs, hsp, hp⟩

/-! ### Claim C6 (amended theorem) -/

/-- Claim C6 (amended): every pair in the parsed trigger → extension map
arises from a configuration entry containing a separator, its components
being the trimmed parts of the split at the first separator — but those
components may be empty: entries such as `"A-"` or `"-B"` are kept, not
dropped (only separator-less entries contribute nothing). -/
theorem parse_pairs_are_trimmed_split_parts (pw : List PyVal)
    (p : String × String) (h : p ∈ parseWhitelistConfig pw) :
    ∃ s l r, PyVal.str s ∈ pw ∧ splitDash s = some (l, r) ∧
      p = (pyStrip r, pyStrip l) := by
  rcases mem_foldl_parseStep pw [] p h with h0 | h1
  · cases h0
  · exact h1

/-- Witness for C6's amended theorem at the concrete configuration
`["A-cmdA"]`. -/
theorem parse_pairs_are_trimmed_split_parts_witness :
    ("cmdA", "A") ∈ parseWhitelistConfig [PyVal.str "A-cmdA"] ∧
      ∃ s l r, PyVal.str s ∈ [PyVal.str "A-cmdA"] ∧
        splitDash s = some (l, r) ∧
        (("cmdA", "A") : String × String) = (pyStrip r, pyStrip l) :=
  ⟨by decide,
    parse_pairs_are_trimmed_split_parts [PyVal.str "A-cmdA"] ("cmdA", "A")
      (by decide)⟩

/-! ### Claim C5 -/

/-- Claim C5: a configuration entry `A-B` (split at the first separator,
so `B` may contain further separators; `A`, `B` non-empty after trim)
makes the Whitelist Parser map trigger `B.trim` to extension `A.trim`, and
the extension-keyed view map extension `A.trim` to trigger `B.trim`; an
entry containing no separator contributes nothing to either view. -/
theorem whitelist_parser_entry_views (a b : String)
    (ha : '-' ∉ a.data) (hta : pyStrip a ≠ "") (htb : pyStrip b ≠ "") :
    parseWhitelistConfig [PyVal.str (a ++ "-" ++ b)] =
        [(pyStrip b, pyStrip a)] ∧
      whitelistConfigByExtension [PyVal.str (a ++ "-" ++ b)] =
        [(pyStrip a, pyStrip b)] ∧
      ∀ (s : String), '-' ∉ s.data → ∀ (pre post : List PyVal),
        parseWhitelistConfig (pre ++ PyVal.str s :: post) =
            parseWhitelistConfig (pre ++ post) ∧
          whitelistConfigByExtension (pre ++ PyVal.str s :: post) =
            whitelistConfigByExtension (pre ++ post) := by
  have hsp := splitDash_concat a b ha
  refine ⟨?_, ?_, ?_⟩
  · simp [parseWhitelistConfig, parseStep, hsp, dictInsert]
  · simp [whitelistConfigByExtension, extStep, hsp, dictInsert]
  · intro s hs pre post
    constructor
    · unfold parseWhitelistConfig
      rw [List.foldl_append, List.foldl_append, List.foldl_cons,
        parseStep_no_dash _ hs]
    · unfold whitelistConfigByExtension
      rw [List.foldl_append, List.foldl_append, List.foldl_cons,
        extStep_no_dash _ hs]

/-- Witness for C5 at the concrete entry `"A-B"`. -/
theorem whitelist_parser_entry_views_witness :
    ('-' ∉ ("A" : String).data) ∧
      parseWhitelistConfig [PyVal.str ("A" ++ "-" ++ "B")] = [("B", "A")] ∧
      whitelistConfigByExtension [PyVal.str ("A" ++ "-" ++ "B")] =
        [("A", "B")] := by
  have h := whitelist_parser_entry_views "A" "B" (by decide) (by decide)
    (by decide)
  exact ⟨by decide, by simpa using h.1, by simpa using h.2.1⟩

/-! ### Claim C1 -/

/-- Claim C1: for a whitelist configuration with the two entries `A-cmdA`
and `B-cmdB` (all parts distinct and non-empty after trim), the two
synthesized handlers are independently bound: the handler found for
trigger `cmdB` carries bound extension `B` — never `A` — and every
invocation of it mentions only `B`, whatever the registry state
(`make_handler` passes the per-iteration extension name as a function
parameter, so no closure shares the last-iterated value). -/
theorem whitelist_handlers_independently_bound (a b ca cb : String)
    (hda : '-' ∉ a.data) (hdb : '-' ∉ b.data)
    (hab : pyStrip a ≠ pyStrip b) (hcc : pyStrip ca ≠ pyStrip cb)
    (hna : pyStrip a ≠ "") (hnb : pyStrip b ≠ "")
    (hnca : pyStrip ca ≠ "") (hncb : pyStrip cb ≠ "") :
    ∃ h : WhitelistHandler,
      (createWhitelistHandlers (parseWhitelistConfig
          [PyVal.str (a ++ "-" ++ ca), PyVal.str (b ++ "-" ++ cb)])).find?
          (fun x => x.command == pyStrip cb) = some h ∧
      h.boundPlugin = pyStrip b ∧ h.boundPlugin ≠ pyStrip a ∧
      ∀ (pw : List PyVal) (gas : Except Unit (List StarMetadata))
        (registry : List HandlerEntry) (selfId : Nat),
        (∃ cmds, runWhitelistHandler h pw gas registry selfId =
            HandlerResult.imageReply [(pyStrip b, cmds)]) ∨
        runWhitelistHandler h pw gas registry selfId =
          HandlerResult.plainReply ("插件 " ++ pyStrip b ++ " 未找到或未激活") := by
  have h1 := splitDash_concat a ca hda
  have h2 := splitDash_concat b cb hdb
  have hparse : parseWhitelistConfig
      [PyVal.str (a ++ "-" ++ ca), PyVal.str (b ++ "-" ++ cb)] =
      [(pyStrip ca, pyStrip a), (pyStrip cb, pyStrip b)] := by
    simp [parseWhitelistConfig, parseStep, h1, h2, dictInsert, hcc]
  refine ⟨⟨pyStrip cb, pyStrip b, handlerName (pyStrip cb)⟩, ?_, rfl,
    hab.symm, ?_⟩
  · rw [hparse]
    have hne : (pyStrip ca == pyStrip cb) = false := beq_eq_false_iff_ne.mpr hcc
    simp [createWhitelistHandlers, List.find?, hne]
  · intro pw gas registry selfId
    cases hfind : (getPluginWhitelistCommands pw gas registry selfId).find?
        (fun p => p.1 == pyStrip b) with
    | none =>
      right
      simp [runWhitelistHandler, hfind]
    | some p =>
      left
      exact ⟨p.2, by simp [runWhitelistHandler, hfind]⟩

/-- Witness for C1 at the concrete configuration
`["A-cmdA", "B-cmdB"]`. -/
theorem whitelist_handlers_independently_bound_witness :
    (pyStrip "A" ≠ pyStrip "B") ∧
      ∃ h : WhitelistHandler,
        (createWhitelistHandlers (parseWhitelistConfig
            [PyVal.str ("A" ++ "-" ++ "cmdA"),
             PyVal.str ("B" ++ "-" ++ "cmdB")])).find?
            (fun x => x.command == pyStrip "cmdB") = some h ∧
        h.boundPlugin = pyStrip "B" ∧ h.boundPlugin ≠ pyStrip "A" ∧
        ∀ (pw : List PyVal) (gas : Except Unit (List StarMetadata))
          (registry : List HandlerEntry) (selfId : Nat),
          (∃ cmds, runWhitelistHandler h pw gas registry selfId =
              HandlerResult.imageReply [(pyStrip "B", cmds)]) ∨
          runWhitelistHandler h pw gas registry selfId =
            HandlerResult.plainReply
              ("插件 " ++ pyStrip "B" ++ " 未找到或未激活") :=
  ⟨by decide,
    whitelist_handlers_independently_bound "A" "B" "cmdA" "cmdB" (by decide)
      (by decide) (by decide) (by decide) (by decide) (by decide) (by decide)
      (by decide)⟩

/-! ### Claim C2 -/

/-- Claim C2: with an empty caller whitelist the full-discovery entry
point proceeds for every caller; with the whitelist `["123"]` a caller id
of `123` (integer) or `"123"` (string) passes the gate (both sides are
coerced to strings), while a caller id of `456` is denied with no reply of
any kind. -/
theorem access_gate_policy (r : List (String × PyVal))
    (gas : Except Unit (List StarMetadata)) (registry : List HandlerEntry)
    (selfId : Nat) :
    (getHelp [] (some r) gas registry selfId =
        if (getAllCommands gas registry selfId).isEmpty then
          HelpResult.plainReply "没有找到任何插件或命令"
        else HelpResult.imageReply (getAllCommands gas registry selfId)) ∧
      ((rawGet r "user_id" = some (PyVal.int 123) ∨
          rawGet r "user_id" = some (PyVal.str "123")) →
        getHelp [PyVal.str "123"] (some r) gas registry selfId =
          if (getAllCommands gas registry selfId).isEmpty then
            HelpResult.plainReply "没有找到任何插件或命令"
          else HelpResult.imageReply (getAllCommands gas registry selfId)) ∧
      (rawGet r "user_id" = some (PyVal.int 456) →
        getHelp [PyVal.str "123"] (some r) gas registry selfId =
          HelpResult.silentDeny) := by
  refine ⟨?_, ?_, ?_⟩
  · cases huid : rawGet r "user_id" <;> simp [getHelp, huid]
  · rintro (h | h)
    · have ht : toString (123 : Int) = "123" := by decide
      simp [getHelp, h, pyStr, ht]
    · simp [getHelp, h, pyStr]
  · intro h
    have ht : ¬ (toString (456 : Int) = "123") := by decide
    simp [getHelp, h, pyStr, ht]

/-- Witness for C2 at concrete payloads carrying caller ids `123` and
`456`. -/
theorem access_gate_policy_witness :
    (rawGet [("user_id", PyVal.int 123)] "user_id" = some (PyVal.int 123)) ∧
      getHelp [PyVal.str "123"] (some [("user_id", PyVal.int 123)])
        (Except.error ()) [] 0 = HelpResult.plainReply "没有找到任何插件或命令" ∧
      getHelp [PyVal.str "123"] (some [("user_id", PyVal.int 456)])
        (Except.error ()) [] 0 = HelpResult.silentDeny := by
  refine ⟨by decide, ?_, ?_⟩
  · have h := (access_gate_policy [("user_id", PyVal.int 123)]
      (Except.error ()) [] 0).2.1 (Or.inl (by decide))
    simpa [getAllCommands] using h
  · exact (access_gate_policy [("user_id", PyVal.int 456)]
      (Except.error ()) [] 0).2.2 (by decide)

/-! ### Key-tracking lemmas for the scanners -/

theorem keys_appendUnique {m : List (String × List String)} {k v x : String}
    (h : x ∈ (appendUnique m k v).map Prod.fst) :
    x = k ∨ x ∈ m.map Prod.fst := by
  unfold appendUnique at h
  by_cases hc : m.any (fun p => p.1 == k) = true
  · rw [if_pos hc] at h
    right
    rw [List.map_map] at h
    obtain ⟨q, hq, hfq⟩ := List.mem_map.mp h
    refine List.mem_map.mpr ⟨q, hq, ?_⟩
    rw [← hfq]
    by_cases hk : q.1 = k <;> simp [hk]
  · rw [if_neg hc] at h
    rw [List.map_append] at h
    rcases List.mem_append.mp h with h1 | h2
    · exact Or.inr h1
    · exact Or.inl (by simpa using h2)

theorem keys_stepHandler {pn mp : String} {acc : List (String × List String)}
    {e : HandlerEntry} {x : String}
    (h : x ∈ (stepHandler pn mp acc e).map Prod.fst) :
    x = pn ∨ x ∈ acc.map Prod.fst := by
  cases e with
  | other => exact Or.inr h
  | meta hm =>
    simp only [stepHandler] at h
    by_cases h1 : hm.handler_module_path ≠ mp
    · rw [if_pos h1] at h
      exact Or.inr h
    · rw [if_neg h1] at h
      cases hcn : extractCommandName hm.event_filters with
      | none =>
        rw [hcn] at h
        exact Or.inr h
      | some cn =>
        rw [hcn] at h
        replace h : x ∈ (if cn = "" then acc
            else appendUnique acc pn (formatCommand cn hm.desc)).map
            Prod.fst := h
        by_cases h2 : cn = ""
        · rw [if_pos h2] at h
          exact Or.inr h
        · rw [if_neg h2] at h
          exact keys_appendUnique h

theorem keys_foldl_stepHandler {pn mp : String} :
    ∀ (registry : List HandlerEntry) (acc : List (String × List String))
      (x : String),
      x ∈ (registry.foldl (stepHandler pn mp) acc).map Prod.fst →
      x = pn ∨ x ∈ acc.map Prod.fst := by
  intro registry
  induction registry with
  | nil => exact fun acc x h => Or.inr h
  | cons e reg ih =>
    intro acc x h
    rw [List.foldl_cons] at h
    rcases ih _ x h with h1 | h2
    · exact Or.inl h1
    · exact keys_stepHandler h2

/-- A star that survives every per-star filter of the "all" scan: not a
reserved name, non-empty name, truthy module path, a `Star` instance that
is not the module's own. -/
def starRetained (selfId : Nat) (star : StarMetadata) : Prop :=
  reservedName star.name = false ∧ star.name ≠ "" ∧
    (∃ mp, star.module_path = some mp ∧ mp ≠ "") ∧
    (∃ i, star.star_cls = some i ∧ i ≠ selfId)

theorem keys_processStar {registry : List HandlerEntry} {selfId : Nat}
    {acc : List (String × List String)} {star : StarMetadata} {x : String}
    (h : x ∈ (processStar registry selfId acc star).map Prod.fst) :
    (starRetained selfId star ∧ x = star.name) ∨ x ∈ acc.map Prod.fst := by
  unfold processStar at h
  by_cases hr : reservedName star.name = true
  · rw [if_pos hr] at h
    exact Or.inr h
  · rw [if_neg hr] at h
    have hr' : reservedName star.name = false := by simpa using hr
    cases hmp : star.module_path with
    | none =>
      rw [hmp] at h
      exact Or.inr h
    | some mp =>
      cases hsc : star.star_cls with
      | none =>
        rw [hmp, hsc] at h
        exact Or.inr h
      | some inst =>
        rw [hmp, hsc] at h
        replace h : x ∈ (if (star.name == "" || mp == "") = true then acc
            else if (inst == selfId) = true then acc
            else scanHandlers registry star.name mp acc).map Prod.fst := h
        by_cases h1 : (star.name == "" || mp == "") = true
        · rw [if_pos h1] at h
          exact Or.inr h
        · rw [if_neg h1] at h
          by_cases h2 : (inst == selfId) = true
          · rw [if_pos h2] at h
            exact Or.inr h
          · rw [if_neg h2] at h
            rcases keys_foldl_stepHandler registry acc x h with h3 | h4
            · left
              have h1' := eq_false_of_ne_true h1
              rw [Bool.or_eq_false_iff] at h1'
              exact ⟨⟨hr', by simpa using h1'.1, ⟨mp, hmp, by simpa using h1'.2⟩,
                ⟨inst, hsc, by simpa using h2⟩⟩, h3⟩
            · exact Or.inr h4

theorem keys_foldl_processStar {registry : List HandlerEntry}
    {selfId : Nat} :
    ∀ (stars : List StarMetadata) (acc : List (String × List String))
      (x : String),
      x ∈ (stars.foldl (processStar registry selfId) acc).map Prod.fst →
      (∃ star ∈ stars, starRetained selfId star ∧ x = star.name) ∨
        x ∈ acc.map Prod.fst := by
  intro stars
  induction stars with
  | nil => exact fun acc x h => Or.inr h
  | cons star stars ih =>
    intro acc x h
    rw [List.foldl_cons] at h
    rcases ih _ x h with ⟨st, hst, hret, hx⟩ | h2
    · exact Or.inl ⟨st, List.mem_cons_of_mem star hst, hret, hx⟩
    · rcases keys_processStar h2 with ⟨hret, hx⟩ | h3
      · exact Or.inl ⟨star, List.mem_cons_self star stars, hret, hx⟩
      · exact Or.inr h3

/-! ### Claim C7 -/

/-- Claim C7: the "all extensions" scan never keys its result by one of
the reserved names, and every key of the result belongs to a star of the
host registry that is activated and whose implementation instance is a
`Star` other than the module's own. -/
theorem all_scan_excludes_reserved_self_deactivated
    (gas : Except Unit (List StarMetadata)) (registry : List HandlerEntry)
    (selfId : Nat) (p : String × List String)
    (h : p ∈ getAllCommands gas registry selfId) :
    (p.1 ≠ "astrbot" ∧ p.1 ≠ "astrbot_plugin_help" ∧
        p.1 ≠ "astrbot-reminder") ∧
      ∃ stars, gas = Except.ok stars ∧ ∃ star, star ∈ stars ∧
        star.name = p.1 ∧ star.activated = true ∧
        ∃ i, star.star_cls = some i ∧ i ≠ selfId := by
  match gas with
  | .error e => exact absurd h (by simp [getAllCommands])
  | .ok stars =>
    simp only [getAllCommands] at h
    by_cases he : (stars.filter (fun s => s.activated)).isEmpty = true
    · rw [if_pos he] at h
      exact absurd h (by simp)
    · rw [if_neg he] at h
      have hx := List.mem_map_of_mem Prod.fst h
      rcases keys_foldl_processStar (stars.filter (fun s => s.activated)) []
          p.1 hx with ⟨star, hstar, hret, hname⟩ | h0
      · obtain ⟨hmem, hact⟩ := List.mem_filter.mp hstar
        obtain ⟨hres, _, _, ⟨i, hi, hine⟩⟩ := hret
        refine ⟨⟨?_, ?_, ?_⟩, stars, rfl, star, hmem, hname.symm,
          by simpa using hact, i, hi, hine⟩ <;>
          · rw [hname]
            intro hx
            rw [hx] at hres
            exact absurd hres (by decide)
      · exact absurd h0 (by simp)

/-- Witness for C7 at a one-star registry that produces a key. -/
theorem all_scan_excludes_witness :
    ("pluginX", ["cmd"]) ∈ getAllCommands
        (Except.ok [⟨"pluginX", true, some 1, some "m"⟩])
        [HandlerEntry.meta ⟨"m", none, [EventFilter.commandFilter "cmd"]⟩]
        0 ∧
      ((("pluginX", ["cmd"]) : String × List String).1 ≠ "astrbot" ∧
          (("pluginX", ["cmd"]) : String × List String).1 ≠
            "astrbot_plugin_help" ∧
          (("pluginX", ["cmd"]) : String × List String).1 ≠
            "astrbot-reminder") ∧
        ∃ stars, (Except.ok [(⟨"pluginX", true, some 1, some "m"⟩ :
              StarMetadata)] : Except Unit (List StarMetadata)) =
            Except.ok stars ∧
          ∃ star, star ∈ stars ∧
            star.name = (("pluginX", ["cmd"]) : String × List String).1 ∧
            star.activated = true ∧ ∃ i, star.star_cls = some i ∧ i ≠ 0 :=
  ⟨by decide,
    all_scan_excludes_reserved_self_deactivated
      (Except.ok [⟨"pluginX", true, some 1, some "m"⟩])
      [HandlerEntry.meta ⟨"m", none, [EventFilter.commandFilter "cmd"]⟩]
      0 ("pluginX", ["cmd"]) (by decide)⟩

/-! ### Duplicate-freedom invariants of the accumulated mapping -/

/-- Invariant of the accumulated `plugin_commands` mapping: its keys are
pairwise distinct and each per-extension list holds no duplicates. -/
def mapInvariant (m : List (String × List String)) : Prop :=
  (m.map Prod.fst).Nodup ∧ ∀ q ∈ m, q.2.Nodup

theorem mapInvariant_appendUnique {m : List (String × List String)}
    {k v : String} (h : mapInvariant m) : mapInvariant (appendUnique m k v) := by
  obtain ⟨hk, hv⟩ := h
  unfold appendUnique
  by_cases hc : m.any (fun p => p.1 == k) = true
  · rw [if_pos hc]
    constructor
    · have heq : (m.map (fun p => if p.1 == k then
          (p.1, if v ∈ p.2 then p.2 else p.2 ++ [v]) else p)).map Prod.fst =
          m.map Prod.fst := by
        rw [List.map_map]
        apply List.map_congr_left
        intro q _
        by_cases h1 : q.1 = k <;> simp [h1]
      rw [heq]
      exact hk
    · intro q hq
      obtain ⟨q', hq', hfq⟩ := List.mem_map.mp hq
      by_cases h1 : q'.1 = k
      · simp only [h1, beq_self_eq_true, if_true] at hfq
        rw [← hfq]
        by_cases hv2 : v ∈ q'.2
        · simpa [hv2] using hv q' hq'
        · simp only [hv2, if_false]
          rw [List.nodup_append]
          refine ⟨hv q' hq', List.nodup_singleton v, ?_⟩
          intro x hx hxv
          rw [List.mem_singleton.mp hxv] at hx
          exact hv2 hx
      · simp only [beq_eq_false_iff_ne.mpr h1, if_false] at hfq
        rw [← hfq]
        exact hv q' hq'
  · rw [if_neg hc]
    constructor
    · rw [List.map_append, List.nodup_append]
      refine ⟨hk, by simp, ?_⟩
      intro x hx hxk
      have hxk' : x = k := by simpa using hxk
      subst hxk'
      obtain ⟨q, hq, hq1⟩ := List.mem_map.mp hx
      exact hc (List.any_eq_true.mpr ⟨q, hq, by simp [hq1]⟩)
    · intro q hq
      rcases List.mem_append.mp hq with h1 | h2
      · exact hv q h1
      · rw [List.mem_singleton.mp h2]
        simp

theorem mapInvariant_stepHandler {pn mp : String}
    {acc : List (String × List String)} {e : HandlerEntry}
    (h : mapInvariant acc) : mapInvariant (stepHandler pn mp acc e) := by
  cases e with
  | other => exact h
  | meta hm =>
    simp only [stepHandler]
    split
    · exact h
    · split
      · exact h
      · split
        · exact h
        · exact mapInvariant_appendUnique h

theorem mapInvariant_scanHandlers {pn mp : String} :
    ∀ (registry : List HandlerEntry) (acc : List (String × List String)),
      mapInvariant acc → mapInvariant (scanHandlers registry pn mp acc) := by
  intro registry
  unfold scanHandlers
  induction registry with
  | nil => exact fun acc h => h
  | cons e reg ih =>
    intro acc h
    rw [List.foldl_cons]
    exact ih _ (mapInvariant_stepHandler h)

theorem mapInvariant_processStar {registry : List HandlerEntry}
    {selfId : Nat} {acc : List (String × List String)} {star : StarMetadata}
    (h : mapInvariant acc) : mapInvariant (processStar registry selfId acc star) := by
  unfold processStar
  split
  · exact h
  · split
    · split
      · exact h
      · split
        · exact h
        · exact mapInvariant_scanHandlers registry acc h
    · exact h

theorem mapInvariant_foldl_processStar {registry : List HandlerEntry}
    {selfId : Nat} :
    ∀ (stars : List StarMetadata) (acc : List (String × List String)),
      mapInvariant acc → mapInvariant (stars.foldl (processStar registry selfId) acc) := by
  intro stars
  induction stars with
  | nil => exact fun acc h => h
  | cons star stars ih =>
    intro acc h
    rw [List.foldl_cons]
    exact ih _ (mapInvariant_processStar h)

/-! ### Claim C9 -/

/-- Claim C9: every per-extension list of the "all extensions" scan result
is free of duplicate formatted strings, and the accumulation step is
idempotent on an already-present string — appending a formatted string
that is already in the extension's list changes nothing, so only the first
occurrence ever appears, in insertion order. -/
theorem per_extension_first_occurrence_dedup :
    (∀ (gas : Except Unit (List StarMetadata)) (registry : List HandlerEntry)
        (selfId : Nat) (p : String × List String),
      p ∈ getAllCommands gas registry selfId → p.2.Nodup) ∧
    (∀ (m : List (String × List String)) (k v : String),
      (m.map Prod.fst).Nodup → v ∈ lookupVals m k → appendUnique m k v = m) := by
  constructor
  · intro gas registry selfId p hp
    match gas with
    | .error e => exact absurd hp (by simp [getAllCommands])
    | .ok stars =>
      simp only [getAllCommands] at hp
      by_cases he : (stars.filter (fun s => s.activated)).isEmpty = true
      · rw [if_pos he] at hp
        exact absurd hp (by simp)
      · rw [if_neg he] at hp
        exact (mapInvariant_foldl_processStar _ [] ⟨List.nodup_nil, by simp⟩).2
          p hp
  · intro m k v hk hv
    unfold lookupVals at hv
    cases hf : m.find? (fun p => p.1 == k) with
    | none =>
      rw [hf] at hv
      exact absurd hv (by simp)
    | some q =>
      rw [hf] at hv
      have hqm : q ∈ m := List.mem_of_find?_eq_some hf
      have hqk : (q.1 == k) = true := (List.find?_eq_some.mp hf).1
      have hqk' : q.1 = k := by simpa using hqk
      unfold appendUnique
      rw [if_pos (List.any_eq_true.mpr ⟨q, hqm, hqk⟩)]
      have hid : ∀ p ∈ m, (if p.1 == k then
          (p.1, if v ∈ p.2 then p.2 else p.2 ++ [v]) else p) = p := by
        intro p hp
        by_cases h1 : p.1 = k
        · have hpq : p = q :=
            List.inj_on_of_nodup_map hk hp hqm (by rw [h1, hqk'])
          have hvp : v ∈ p.2 := by rw [hpq]; exact hv
          rw [if_pos (beq_iff_eq.mpr h1), if_pos hvp]
        · simp [h1]
      calc m.map (fun p => if p.1 == k then
              (p.1, if v ∈ p.2 then p.2 else p.2 ++ [v]) else p)
          = m.map id := List.map_congr_left hid
        _ = m := List.map_id m

/-- Witness for C9 at a one-star registry. -/
theorem per_extension_first_occurrence_dedup_witness :
    ("pluginY", ["c1"]) ∈ getAllCommands
        (Except.ok [⟨"pluginY", true, some 1, some "my"⟩])
        [HandlerEntry.meta ⟨"my", none, [EventFilter.commandFilter "c1"]⟩]
        0 ∧
      ((("pluginY", ["c1"]) : String × List String).2).Nodup :=
  ⟨by decide,
    per_extension_first_occurrence_dedup.1
      (Except.ok [⟨"pluginY", true, some 1, some "my"⟩])
      [HandlerEntry.meta ⟨"my", none, [EventFilter.commandFilter "c1"]⟩]
      0 ("pluginY", ["c1"]) (by decide)⟩

/-! ### Claim C10 -/

/-- Claim C10: the whitelist-restricted scan applies no reserved-name
filter — an activated extension named `"astrbot"` that is listed in the
plugin whitelist appears in the result with its commands — while a star
whose implementation instance is the module's own is still excluded by
the identity check and contributes nothing. -/
theorem whitelist_scan_ignores_reserved_names :
    getPluginWhitelistCommands [PyVal.str "astrbot-help"]
        (Except.ok [⟨"astrbot", true, some 0, some "m_self"⟩,
          ⟨"astrbot", true, some 1, some "m_other"⟩])
        [HandlerEntry.meta ⟨"m_self", none,
            [EventFilter.commandFilter "selfcmd"]⟩,
          HandlerEntry.meta ⟨"m_other", none,
            [EventFilter.commandFilter "othercmd"]⟩]
        0 = [("astrbot", ["othercmd"])] ∧
      ∀ (wc : List (String × String)) (registry : List HandlerEntry)
        (selfId : Nat) (acc : List (String × List String))
        (star : StarMetadata),
        star.star_cls = some selfId →
        processStarWL wc registry selfId acc star = acc := by
  constructor
  · decide
  · intro wc registry selfId acc star hcls
    unfold processStarWL
    rw [hcls]
    cases hmp : star.module_path <;> simp

/-- Witness for C10's identity-exclusion conjunct at a concrete star. -/
theorem whitelist_scan_ignores_reserved_names_witness :
    (⟨"x", true, some 5, some "m"⟩ : StarMetadata).star_cls = some 5 ∧
      processStarWL [] [] 5 [] ⟨"x", true, some 5, some "m"⟩ = [] :=
  ⟨rfl, whitelist_scan_ignores_reserved_names.2 [] [] 5 []
    ⟨"x", true, some 5, some "m"⟩ rfl⟩

end AstrbotHelp
